import Mathlib

/-!
Verification development for the topo-planner mesh backhaul planner.

The Python sources are shallowly embedded: dictionaries become association
lists (Python dicts preserve insertion order, and lookups take the first
binding), Python floats become exact rationals (the planner only adds,
multiplies and compares them; the spec formulas are the same algebraic
expressions), machine integers become Int/Nat, and fallible code returns
Except/Option.  String operations are modelled on the character list of the
string, which matches Python's code-point semantics.
-/

/-- Python string comparison (code-point lexicographic) on character lists. -/
def charListLt : List Char → List Char → Bool
  | [], [] => false
  | [], _ :: _ => true
  | _ :: _, [] => false
  | a :: as, b :: bs => if a < b then true else if b < a then false else charListLt as bs

/-- Python string comparison on strings, via their character lists. -/
def strLt (a b : String) : Bool :=
  charListLt a.toList b.toList

/-- Python `s.split('_')` on a character list: split at every underscore,
keeping empty pieces, as Python does. -/
def splitUnderscoreChars : List Char → List (List Char)
  | [] => [[]]
  | c :: rest =>
    let r := splitUnderscoreChars rest
    if c = '_' then [] :: r
    else
      match r with
      | h :: t => (c :: h) :: t
      | [] => [[c]]

/-- Python `edge_key.split('_')`, producing strings. -/
def pySplitUnderscore (s : String) : List String :=
  (splitUnderscoreChars s.toList).map List.asString

/-- Python `s.startswith('SN')`. -/
def startsWithSN (s : String) : Bool :=
  match s.toList with
  | 'S' :: 'N' :: _ => true
  | _ => false

/-- First-match lookup in an association list (Python dict indexing). -/
def alookup {α β : Type} [DecidableEq α] : List (α × β) → α → Option β
  | [], _ => none
  | e :: t, k => if e.1 = k then some e.2 else alookup t k

/-- The two 6 GHz sub-bands, `'6GH'` and `'6GL'` in the source. -/
inductive Band
  | H
  | L
deriving DecidableEq, Repr

/-- The four bandwidth keys `'160M'`, `'80M'`, `'40M'`, `'20M'`. -/
inductive BWidth
  | w160
  | w80
  | w40
  | w20
deriving DecidableEq, Repr

/-- Python `int(bandwidth[:-1])`: the numeric bandwidth of a bandwidth key. -/
def BWidth.mhz : BWidth → Nat
  | .w160 => 160
  | .w80 => 80
  | .w40 => 40
  | .w20 => 20

/-- models.py NodeInfo: gps pair, load, per band/bandwidth channel lists and
EIRP lists (indexed by the same band and bandwidth keys as the source dicts). -/
structure NodeInfo where
  gps : ℚ × ℚ
  load : ℚ
  channels : Band → BWidth → List Int
  max_eirp : Band → BWidth → List ℚ

/-- models.py EdgeInfo: bidirectional RSSI per band. -/
structure EdgeInfo where
  rssi_6gh : Int × Int
  rssi_6gl : Int × Int
deriving DecidableEq, Repr

/-- models.py TopologyNode. -/
structure TopologyNode where
  parent : Option String
  backhaul_band : Option Band
  level : Nat
  channel : List Int
  bandwidth : List Nat
  max_eirp : List ℚ
deriving DecidableEq

/-- config.py TopologyConfig. -/
structure TopologyConfig where
  MAX_DEGREE : Nat
  RSSI_THRESHOLD : Int
  MAX_HOP : Nat
  THROUGHPUT_WEIGHT : ℚ
  LOAD_WEIGHT : ℚ
  HOP_WEIGHT : ℚ
  RSSI_CONFLICT_THRESHOLD : Int

/-- The default configuration values of config.py. -/
def defaultConfig : TopologyConfig :=
  ⟨3, -72, 5, 1, 1/2, -80, -85⟩

/-- The topology map `Dict[str, TopologyNode]` as an insertion-ordered list. -/
abbrev Topology := List (String × TopologyNode)

/-- The node map `Dict[str, NodeInfo]`. -/
abbrev NodeMap := List (String × NodeInfo)

/-- The edge map `Dict[Tuple[str, str], EdgeInfo]`. -/
abbrev EdgeMap := List ((String × String) × EdgeInfo)

/-- Python `max(edge.rssi_6gh + edge.rssi_6gl)`: the maximum of the four RSSI
samples of an edge. -/
def EdgeInfo.rssiMax (e : EdgeInfo) : Int :=
  max (max e.rssi_6gh.1 e.rssi_6gh.2) (max e.rssi_6gl.1 e.rssi_6gl.2)

/-- Python `edges.get((a, b)) or edges.get((b, a))`: edge lookup trying both
orientations, the given one first. -/
def edgeLookup (edges : EdgeMap) (a b : String) : Option EdgeInfo :=
  match alookup edges (a, b) with
  | some e => some e
  | none => alookup edges (b, a)

/-- Replace the value bound to a key (mutation of one dict entry). -/
def updateNode (t : Topology) (k : String) (f : TopologyNode → TopologyNode) : Topology :=
  t.map (fun e => if e.1 = k then (e.1, f e.2) else e)

/-- topology_generator.py `_predict_throughput`: `max(0, (rssi + 100) * 10)`. -/
def predictThroughput (rssi : Int) : ℚ :=
  max 0 (((rssi : ℚ) + 100) * 10)

/-- topology_generator.py `_calculate_edge_weight`.  `none` stands for the
`float('-inf')` sentinel returned when no edge connects the pair, and also for
the `KeyError` a missing node id would raise; `_find_best_edge` only calls
this after checking that the edge exists, and only with node ids drawn from
the node map. -/
def calcEdgeWeight (cfg : TopologyConfig) (parent child : String)
    (nodes : NodeMap) (edges : EdgeMap) (tree : Topology) : Option ℚ :=
  match edgeLookup edges parent child with
  | none => none
  | some e =>
    match alookup nodes parent, alookup nodes child with
    | some np, some nc =>
      let throughput := predictThroughput e.rssiMax
      let totalLoad := np.load + nc.load
      let parentHops : ℚ := match alookup tree parent with
        | some tp => (tp.level : ℚ)
        | none => 0
      some (cfg.THROUGHPUT_WEIGHT * throughput +
            cfg.LOAD_WEIGHT * totalLoad +
            cfg.HOP_WEIGHT * parentHops)
    | _, _ => none

/-- topology_generator.py `_check_rssi_constraint`. -/
def checkRssiConstraint (cfg : TopologyConfig) (e : EdgeInfo) : Bool :=
  decide (cfg.RSSI_THRESHOLD ≤ e.rssiMax)

/-- topology_generator.py `_check_degree_constraint`. -/
def checkDegreeConstraint (cfg : TopologyConfig) (parent : String) (tree : Topology) : Bool :=
  match alookup tree parent with
  | none => true
  | some _ => decide ((tree.filter (fun e => e.2.parent = some parent)).length < cfg.MAX_DEGREE)

/-- topology_generator.py `_check_hop_constraint`. -/
def checkHopConstraint (cfg : TopologyConfig) (parent : String) (tree : Topology) : Bool :=
  match alookup tree parent with
  | none => true
  | some tp => decide (tp.level < cfg.MAX_HOP)

/-- topology_generator.py `_check_constraints`; the frequency constraint hook
of the source always returns True (a stub) and is inlined as `true` here. -/
def checkConstraints (cfg : TopologyConfig) (parent child : String)
    (_nodes : NodeMap) (edges : EdgeMap) (tree : Topology) : Bool :=
  match edgeLookup edges parent child with
  | none => false
  | some e =>
    checkRssiConstraint cfg e && true &&
    checkDegreeConstraint cfg parent tree && checkHopConstraint cfg parent tree

/-- Comparison of heap entries `(-weight, parent, child)`: Python's tuple
order on the negated weight, then the parent id, then the child id.  The
entry stores the positive weight, so the weight comparison is reversed. -/
def heapEntryLt (a b : ℚ × String × String) : Bool :=
  if b.1 < a.1 then true
  else if a.1 < b.1 then false
  else if strLt a.2.1 b.2.1 then true
  else if strLt b.2.1 a.2.1 then false
  else strLt a.2.2 b.2.2

/-- The candidate edges contributed by one selected parent in
`_find_best_edge`: children drawn from the unselected set for which the edge
exists and every constraint holds, tagged with their weight. -/
def candidatesForParent (cfg : TopologyConfig) (p : String) (unsel : List String)
    (nodes : NodeMap) (edges : EdgeMap) (tree : Topology) : List (ℚ × String × String) :=
  match unsel with
  | [] => []
  | c :: rest =>
    let tail := candidatesForParent cfg p rest nodes edges tree
    if (edgeLookup edges p c).isSome then
      if checkConstraints cfg p c nodes edges tree then
        match calcEdgeWeight cfg p c nodes edges tree with
        | some w => (w, p, c) :: tail
        | none => tail
      else tail
    else tail

/-- All candidate edges of `_find_best_edge` (parents from the selected set). -/
def allCandidates (cfg : TopologyConfig) (sel unsel : List String)
    (nodes : NodeMap) (edges : EdgeMap) (tree : Topology) : List (ℚ × String × String) :=
  match sel with
  | [] => []
  | p :: rest =>
    candidatesForParent cfg p unsel nodes edges tree ++
      allCandidates cfg rest unsel nodes edges tree

/-- The least heap entry among the candidates: `heapq.heappop` after pushing
them all returns the minimum under the tuple order, which is the entry of
maximal weight with ties broken by the smaller (parent, child) pair. -/
def heapMin (x : ℚ × String × String) (xs : List (ℚ × String × String)) : ℚ × String × String :=
  xs.foldl (fun best y => if heapEntryLt y best then y else best) x

/-- topology_generator.py `_find_best_edge`, returning (parent, child, weight). -/
def findBestEdge (cfg : TopologyConfig) (sel unsel : List String)
    (nodes : NodeMap) (edges : EdgeMap) (tree : Topology) : Option (String × String × ℚ) :=
  match allCandidates cfg sel unsel nodes edges tree with
  | [] => none
  | x :: xs =>
    let m := heapMin x xs
    some (m.2.1, m.2.2, m.1)

/-- topology_generator.py TopologyGenerationError, message only (the source
never populates the structured detail fields on the paths modelled here). -/
structure TopologyGenerationErrorData where
  message : String
deriving DecidableEq, Repr

/-- The body and exit of the `while` loop of `_generate_tree`: after the loop,
`iteration_count >= max_iterations` raises, otherwise the tree is returned
(unattached nodes only produce a warning). -/
def primPost (tree : Topology) (iterCount maxIter : Nat) :
    Except TopologyGenerationErrorData Topology :=
  if maxIter ≤ iterCount then .error ⟨"超过最大迭代次数限制"⟩
  else .ok tree

/-- The `while unselected and iteration_count < max_iterations` loop of
`_generate_tree`.  Each pass attaches the best admissible edge's child with
level `parent.level + 1` and backhaul band H when the parent's level is even,
else L.  `fuel` only bounds the recursion; it is at least the number of
unselected nodes at every call, and each pass removes one unselected node, so
the zero case (which exits like the loop) is never reached.  The source's
`weight <= float('-inf')` re-check can never fire because candidates are only
formed for existing edges, whose weight is finite; it has no counterpart
here.  A missing parent binding would raise a KeyError wrapped into
TopologyGenerationError, modelled by the error branch. -/
def primLoop (cfg : TopologyConfig) (nodes : NodeMap) (edges : EdgeMap) :
    Nat → List String → List String → Topology → Nat → Nat →
    Except TopologyGenerationErrorData Topology
  | 0, _, _, tree, iterCount, maxIter => primPost tree iterCount maxIter
  | fuel + 1, sel, unsel, tree, iterCount, maxIter =>
    if unsel.isEmpty || decide (maxIter ≤ iterCount) then primPost tree iterCount maxIter
    else
      match findBestEdge cfg sel unsel nodes edges tree with
      | none => primPost tree iterCount maxIter
      | some (p, c, _) =>
        match alookup tree p with
        | none => .error ⟨"生成树过程发生错误: KeyError"⟩
        | some pn =>
          let bb : Band := if pn.level % 2 = 0 then .H else .L
          let childNode : TopologyNode := ⟨some p, some bb, pn.level + 1, [], [], []⟩
          primLoop cfg nodes edges fuel (sel ++ [c]) (unsel.erase c)
            (tree ++ [(c, childNode)]) (iterCount + 1) maxIter

/-- topology_generator.py `_generate_tree`: root is the first node of the
input map, the unselected pool is every other key, and the iteration cap is
twice the node count. -/
def generateTree (cfg : TopologyConfig) (nodes : NodeMap) (edges : EdgeMap) :
    Except TopologyGenerationErrorData Topology :=
  match nodes with
  | [] => .error ⟨"节点列表为空"⟩
  | (rootId, _) :: _ =>
    let tree0 : Topology := [(rootId, ⟨none, none, 0, [], [], []⟩)]
    let unsel := ((nodes.map Prod.fst).dedup).filter (fun k => k ≠ rootId)
    primLoop cfg nodes edges nodes.length [rootId] unsel tree0 0 (2 * nodes.length)

/-- channel_assigner.py ChannelAssignmentError: message plus the structured
details of exceptions.py, each of which defaults to None.  The source's
`__str__` also renders the details dict into the text of a wrapping error;
that rendering is elided because the details never carry data. -/
structure ChannelAssignmentErrorData where
  message : String
  node_id : Option String
  band : Option String
  attempted_channels : Option (List Int)
  conflict_nodes : Option (List String)
deriving DecidableEq

/-- A ChannelAssignmentError raised with a message only, as at every raise
site of channel_assigner.py: all detail fields keep their None default. -/
def mkChanErr (msg : String) : ChannelAssignmentErrorData :=
  ⟨msg, none, none, none, none⟩

/-- channel_assigner.py `_get_conflict_nodes`: every node on the other end of
an edge whose strongest RSSI sample reaches the conflict threshold.  The
topology argument is accepted and ignored exactly as in the source. -/
def getConflictNodes (cfg : TopologyConfig) (nodeId : String) (_topology : Topology)
    (edges : EdgeMap) : List String :=
  match edges with
  | [] => []
  | ((n1, n2), e) :: rest =>
    let r := getConflictNodes cfg nodeId _topology rest
    if nodeId = n1 ∨ nodeId = n2 then
      if cfg.RSSI_CONFLICT_THRESHOLD ≤ e.rssiMax then
        (if nodeId = n1 then n2 else n1) :: r
      else r
    else r

/-- The used-channel set of `_get_available_channels`: the union of the
channel lists of every conflicting node present in the topology with a
non-empty (truthy) channel list. -/
def usedChannelsOf (topology : Topology) : List String → List Int
  | [] => []
  | m :: rest =>
    let r := usedChannelsOf topology rest
    match alookup topology m with
    | some tn => if tn.channel.isEmpty then r else tn.channel ++ r
    | none => r

/-- An order oracle for Python set materialisation: `σ device used` models
`list(set(device) - set(used))`.  CPython fixes its order by the hash-table
layout of the sets; the oracle abstracts exactly that order and nothing else,
so every result about the assigner is proved for all oracles that enumerate
the correct set, see `AvailOrder`. -/
def AvailOrder (σ : List Int → List Int → List Int) : Prop :=
  ∀ device used,
    List.Perm (σ device used) ((device.dedup).filter (fun c => decide (c ∉ used)))

/-- A concrete materialisation order used to run the model on closed inputs:
the declared order of the device list with duplicates and used channels
removed. -/
def pyOrderRef : List Int → List Int → List Int :=
  fun device used => (device.dedup).filter (fun c => decide (c ∉ used))

/-- channel_assigner.py `_get_available_channels`, with `node_info[node_id]`
resolved by the caller (a missing id raises a KeyError there, modelled as the
caller's error branch): `list(set(device_channels) - set(used_channels))`
under the materialisation oracle. -/
def getAvailableChannels (σ : List Int → List Int → List Int) (info : NodeInfo)
    (band : Band) (bw : BWidth) (conflictNodes : List String) (topology : Topology) :
    List Int :=
  σ (info.channels band bw) (usedChannelsOf topology conflictNodes)

/-- Append an assignment (channel, numeric bandwidth, EIRP) to a node's lists. -/
def appendAssign (topology : Topology) (nodeId : String) (c : Int) (bwMhz : Nat)
    (ei : ℚ) : Topology :=
  updateNode topology nodeId (fun t =>
    ⟨t.parent, t.backhaul_band, t.level, t.channel ++ [c], t.bandwidth ++ [bwMhz],
      t.max_eirp ++ [ei]⟩)

/-- The bandwidth backoff loop of `_try_assign_channel`: try each bandwidth in
order; on the first one with an available channel, assign its first available
channel, the numeric bandwidth, and the EIRP looked up by the channel's index
in the declared list.  `.error` models the IndexError an out-of-range EIRP
lookup raises; `.ok none` is the loop falling through (return False). -/
def tryBandwidths (σ : List Int → List Int → List Int) (nodeId : String)
    (info : NodeInfo) (band : Band) (conflictNodes : List String)
    (topology : Topology) : List BWidth → Except Unit (Option Topology)
  | [] => .ok none
  | bw :: rest =>
    match getAvailableChannels σ info band bw conflictNodes topology with
    | [] => tryBandwidths σ nodeId info band conflictNodes topology rest
    | c :: _ =>
      let idx := (info.channels band bw).indexOf c
      match (info.max_eirp band bw)[idx]? with
      | none => .error ()
      | some ei => .ok (some (appendAssign topology nodeId c bw.mhz ei))

/-- channel_assigner.py `_try_assign_channel`: conflicts are computed once,
then bandwidths are tried from 160M down to 20M. -/
def tryAssignChannel (σ : List Int → List Int → List Int) (cfg : TopologyConfig)
    (nodeId : String) (band : Band) (topology : Topology) (nodes : NodeMap)
    (edges : EdgeMap) : Except Unit (Option Topology) :=
  match alookup nodes nodeId with
  | none => .error ()
  | some info =>
    let conflicts := getConflictNodes cfg nodeId topology edges
    tryBandwidths σ nodeId info band conflicts topology
      [.w160, .w80, .w40, .w20]

/-- Modelled from the spec: `_assign_minimum_bandwidth` is called at
channel_assigner.py line 164 but defined nowhere in the repository; the spec
(section 4.3.2) says to treat it as a retry of the 20 MHz step of the
backoff loop, returning success or failure like `_try_assign_channel`. -/
def assignMinimumBandwidth (σ : List Int → List Int → List Int) (cfg : TopologyConfig)
    (nodeId : String) (band : Band) (topology : Topology) (nodes : NodeMap)
    (edges : EdgeMap) : Except Unit (Option Topology) :=
  match alookup nodes nodeId with
  | none => .error ()
  | some info =>
    let conflicts := getConflictNodes cfg nodeId topology edges
    tryBandwidths σ nodeId info band conflicts topology [.w20]

/-- One band of `_assign_root_channels`: if the 160M list of the band is
non-empty, append its first channel, bandwidth 160, and the first EIRP of the
band's 160M list.  The source appends channel and bandwidth before looking up
the EIRP, so an out-of-range EIRP lookup (IndexError, here `.error`) leaves a
partial mutation behind — unobservable, because the error aborts the whole
assignment run. -/
def assignRootBand (rootId : String) (topology : Topology) (info : NodeInfo)
    (band : Band) : Except Unit Topology :=
  match info.channels band .w160 with
  | [] => .ok topology
  | c :: _ =>
    match (info.max_eirp band .w160)[0]? with
    | none => .error ()
    | some ei => .ok (appendAssign topology rootId c 160 ei)

/-- channel_assigner.py `_assign_root_channels`: the 6GH radio then the 6GL
radio, each at 160 MHz when available.  `.error` models the KeyError of a
root missing from the node map and the IndexError of an empty EIRP list. -/
def assignRootChannels (rootId : String) (topology : Topology) (nodes : NodeMap) :
    Except Unit Topology :=
  match alookup nodes rootId with
  | none => .error ()
  | some info =>
    match assignRootBand rootId topology info .H with
    | .error u => .error u
    | .ok t1 => assignRootBand rootId t1 info .L

/-- The sort key of `_sort_nodes_by_load`: `node_info[x].load`.  Callers run
the sort only when every id is present (a missing id raises a KeyError that
the outermost handler turns into a generic error, modelled by the guard in
`levelsLoop`), so the default value is never consulted on reachable paths. -/
def loadOf (nodes : NodeMap) (x : String) : ℚ :=
  ((alookup nodes x).map NodeInfo.load).getD 0

/-- Stable insertion for descending load order: x is placed before the first
element whose load does not exceed x's, so earlier input wins ties — the
behaviour of Python's stable `sorted(..., reverse=True)`. -/
def insertByLoadDesc (nodes : NodeMap) (x : String) : List String → List String
  | [] => [x]
  | y :: ys =>
    if loadOf nodes y ≤ loadOf nodes x then x :: y :: ys
    else y :: insertByLoadDesc nodes x ys

/-- channel_assigner.py `_sort_nodes_by_load`:
`sorted(nodes, key=lambda x: node_info[x].load, reverse=True)`. -/
def sortNodesByLoad (ns : List String) (nodes : NodeMap) : List String :=
  match ns with
  | [] => []
  | x :: rest => insertByLoadDesc nodes x (sortNodesByLoad rest nodes)

/-- Ascending insertion sort on naturals, for `sorted(level_nodes.keys())`. -/
def insertNatAsc (n : Nat) : List Nat → List Nat
  | [] => [n]
  | m :: t => if n ≤ m then n :: m :: t else m :: insertNatAsc n t

/-- Ascending sort on naturals. -/
def sortNatAsc : List Nat → List Nat
  | [] => []
  | n :: rest => insertNatAsc n (sortNatAsc rest)

/-- channel_assigner.py `_get_level_nodes` at one level: the ids of that
level in topology insertion order (defaultdict append order). -/
def levelNodesOf (base : Topology) (l : Nat) : List String :=
  (base.filter (fun e => e.2.level = l)).map Prod.fst

/-- `sorted(level_nodes.keys())`: the distinct levels of the topology in
ascending order. -/
def sortedLevelKeys (base : Topology) : List Nat :=
  sortNatAsc ((base.map (fun e => e.2.level)).dedup)

/-- The per-node body of the assignment loop of `assign_channels`: missing
parent and invalid backhaul band raise, the band is 6GH for backhaul H and
6GL for backhaul L, and a node that survives neither the backoff loop nor
the minimum-bandwidth retry raises.  Every raise reaches the per-node
`except`, which re-raises ChannelAssignmentError from the message alone, so
the structured details stay None. -/
def processNode (σ : List Int → List Int → List Int) (cfg : TopologyConfig)
    (x : String) (topology : Topology) (nodes : NodeMap) (edges : EdgeMap) :
    Except ChannelAssignmentErrorData Topology :=
  match alookup topology x with
  | none => .error (mkChanErr ("节点 " ++ x ++ " 信道分配失败: KeyError"))
  | some tn =>
    match tn.parent with
    | none => .error (mkChanErr ("节点 " ++ x ++ " 信道分配失败: 节点 " ++ x ++ " 缺少父节点信息"))
    | some _ =>
      match tn.backhaul_band with
      | none => .error (mkChanErr ("节点 " ++ x ++ " 信道分配失败: 节点 " ++ x ++ " 的回程频段无效"))
      | some b =>
        match tryAssignChannel σ cfg x b topology nodes edges with
        | .error _ => .error (mkChanErr ("节点 " ++ x ++ " 信道分配失败: IndexError"))
        | .ok (some t2) => .ok t2
        | .ok none =>
          match assignMinimumBandwidth σ cfg x b topology nodes edges with
          | .error _ => .error (mkChanErr ("节点 " ++ x ++ " 信道分配失败: IndexError"))
          | .ok (some t2) => .ok t2
          | .ok none =>
            .error (mkChanErr ("节点 " ++ x ++ " 信道分配失败: 节点 " ++ x ++ " 无法分配任何有效信道"))

/-- The inner for-loop of `assign_channels` over the sorted nodes of a level. -/
def nodesLoop (σ : List Int → List Int → List Int) (cfg : TopologyConfig) :
    List String → Topology → NodeMap → EdgeMap →
    Except ChannelAssignmentErrorData Topology
  | [], topology, _, _ => .ok topology
  | x :: rest, topology, nodes, edges =>
    match processNode σ cfg x topology nodes edges with
    | .error e => .error e
    | .ok t2 => nodesLoop σ cfg rest t2 nodes edges

/-- The outer for-loop of `assign_channels` over the levels above the lowest.
The level grouping `base` is computed once before the loop; a level node
missing from the node map makes the sort's key function raise a KeyError,
which the outermost handler wraps into a generic ChannelAssignmentError. -/
def levelsLoop (σ : List Int → List Int → List Int) (cfg : TopologyConfig)
    (base : Topology) :
    List Nat → Topology → NodeMap → EdgeMap →
    Except ChannelAssignmentErrorData Topology
  | [], topology, _, _ => .ok topology
  | l :: rest, topology, nodes, edges =>
    let lnodes := levelNodesOf base l
    if lnodes.all (fun x => (alookup nodes x).isSome) then
      match nodesLoop σ cfg (sortNodesByLoad lnodes nodes) topology nodes edges with
      | .error e => .error e
      | .ok t2 => levelsLoop σ cfg base rest t2 nodes edges
    else .error (mkChanErr "信道分配过程发生错误: KeyError")

/-- channel_assigner.py `assign_channels`: reject an empty topology, find the
first parentless node as root, assign the root's radios, then walk the
levels above the lowest one in ascending order, each level sorted by load
descending. -/
def assignChannels (σ : List Int → List Int → List Int) (cfg : TopologyConfig)
    (topology : Topology) (nodes : NodeMap) (edges : EdgeMap) :
    Except ChannelAssignmentErrorData Topology :=
  if topology.isEmpty then .error (mkChanErr "拓扑结构为空")
  else
    match topology.find? (fun e => e.2.parent.isNone) with
    | none => .error (mkChanErr "拓扑中未找到根节点")
    | some rootEntry =>
      match assignRootChannels rootEntry.1 topology nodes with
      | .error _ => .error (mkChanErr "根节点信道分配失败")
      | .ok t1 =>
        levelsLoop σ cfg t1 ((sortedLevelKeys t1).drop 1) t1 nodes edges

/-- Modelled from the spec: the facade method `TopologyGenerator
.generate_topology` that api.py calls is absent from the repository; per the
spec (section 2), it chains tree construction into channel assignment. -/
def generateTopologyCore (σ : List Int → List Int → List Int)
    (cfg : TopologyConfig) (nodes : NodeMap) (edges : EdgeMap) :
    Except (TopologyGenerationErrorData ⊕ ChannelAssignmentErrorData) Topology :=
  match generateTree cfg nodes edges with
  | .error e => .error (.inl e)
  | .ok tree =>
    match assignChannels σ cfg tree nodes edges with
    | .error e => .error (.inr e)
    | .ok t => .ok t

/-- api.py `validate_edge_data` step 2, the edge-key format check:
`node1, node2 = edge_key.split('_')` (ValueError unless the split yields
exactly two pieces) and both pieces must start with `SN`.  The nodes map is
not consulted. -/
def edgeKeyFormatOk (key : String) : Bool :=
  match pySplitUnderscore key with
  | [a, b] => startsWithSN a && startsWithSN b
  | _ => false

/-- The stored dict key of an edge, `tuple(edge_key.split('_'))`, for keys
that split into exactly two pieces. -/
def edgeKeyToPair (key : String) : Option (String × String) :=
  match pySplitUnderscore key with
  | [a, b] => some (a, b)
  | _ => none

/-- The range check of api.py `validate_edge_data` step 3 for one RSSI pair:
both samples in [-100, 0]. -/
def rssiRangeOk (p : Int × Int) : Bool :=
  decide (-100 ≤ p.1) && decide (p.1 ≤ 0) && decide (-100 ≤ p.2) && decide (p.2 ≤ 0)

/-- api.py `validate_edge_data` steps 3-5 on the RSSI values (the shape and
type checks are carried by the `EdgeInfo` embedding): per band the samples
are in range with |forward - reverse| <= 20; per direction the 6GH sample
does not exceed the 6GL sample and their gap is at most 15; and not all four
samples are <= -85. -/
def validateEdgeRssi (gh gl : Int × Int) : Bool :=
  rssiRangeOk gh && decide (|gh.1 - gh.2| ≤ 20) &&
  rssiRangeOk gl && decide (|gl.1 - gl.2| ≤ 20) &&
  decide (gh.1 ≤ gl.1) && decide (|gh.1 - gl.1| ≤ 15) &&
  decide (gh.2 ≤ gl.2) && decide (|gh.2 - gl.2| ≤ 15) &&
  !(decide (gh.1 ≤ -85) && decide (gh.2 ≤ -85) && decide (gl.1 ≤ -85) && decide (gl.2 ≤ -85))

/-- api.py `validate_edge_data` on one edge entry: key format plus RSSI rules. -/
def validateEdgeData (key : String) (e : EdgeInfo) : Bool :=
  edgeKeyFormatOk key && validateEdgeRssi e.rssi_6gh e.rssi_6gl

/-- The required node fields of api.py `validate_node_data`. -/
def apiNodeRequiredFields : List String :=
  ["gps", "load", "channels", "maxEirp"]

/-- The required node fields of validators.py `validate_node_data`. -/
def validatorsNodeRequiredFields : List String :=
  ["gps", "load", "channels", "max_eirp"]

/-- The dataclass fields of models.py `NodeInfo`. -/
def nodeInfoFieldNames : List String :=
  ["gps", "load", "channels", "max_eirp"]

/-- The field-presence part of api.py `validate_node_data`: every required
field appears among the payload's keys. -/
def apiValidateNodeFieldsOk (payloadKeys : List String) : Bool :=
  apiNodeRequiredFields.all (fun f => payloadKeys.contains f)

/-- The field-presence part of validators.py `validate_node_data`. -/
def validatorsValidateNodeFieldsOk (payloadKeys : List String) : Bool :=
  validatorsNodeRequiredFields.all (fun f => payloadKeys.contains f)

/-- Python `NodeInfo(**payload)`: a dataclass call succeeds exactly when the
keyword set equals the field set — every field is required (none has a
default) and an unknown keyword raises TypeError. -/
def nodeInfoKwargsOk (payloadKeys : List String) : Bool :=
  payloadKeys.all (fun k => nodeInfoFieldNames.contains k) &&
  nodeInfoFieldNames.all (fun f => payloadKeys.contains f)

/-- The node-decoding pipeline of api.py `generate_topology` on the field
names of one node payload: `validate_node_data` then `NodeInfo(**payload)`;
the payload decodes to a NodeInfo only when both succeed. -/
def apiNodeDecodeOk (payloadKeys : List String) : Bool :=
  apiValidateNodeFieldsOk payloadKeys && nodeInfoKwargsOk payloadKeys

/-- Stated from the spec for comparison (claim C7): split the edge key at the
last underscore, and accept when both halves start with SN and both occur
among the node-map keys. -/
def edgeKeyOkSpec (key : String) (nodeKeys : List String) : Bool :=
  match pySplitUnderscore key with
  | [] => false
  | [_] => false
  | parts =>
    let a := String.intercalate "_" parts.dropLast
    let b := parts.getLastD ""
    startsWithSN a && startsWithSN b && nodeKeys.contains a && nodeKeys.contains b

/-- Stated from the spec for comparison (claim C8): the processing order the
claim names, a stable sort on the key (-load, id) — load descending and ids
ascending among equal loads. -/
def insertByLoadThenId (nodes : NodeMap) (x : String) : List String → List String
  | [] => [x]
  | y :: ys =>
    if loadOf nodes y < loadOf nodes x then x :: y :: ys
    else if loadOf nodes x < loadOf nodes y then y :: insertByLoadThenId nodes x ys
    else if strLt x y ∨ x = y then x :: y :: ys
    else y :: insertByLoadThenId nodes x ys

/-- Stated from the spec for comparison (claim C8): sort by (-load, id). -/
def sortByLoadThenIdSpec (ns : List String) (nodes : NodeMap) : List String :=
  match ns with
  | [] => []
  | x :: rest => insertByLoadThenId nodes x (sortByLoadThenIdSpec rest nodes)

/-- Stated from the spec for comparison (claim C10): the neighbours of a node
in the edge map — the same enumeration as `_get_conflict_nodes` without the
RSSI threshold test. -/
def neighborsOf (nodeId : String) (edges : EdgeMap) : List String :=
  match edges with
  | [] => []
  | ((n1, n2), _) :: rest =>
    let r := neighborsOf nodeId rest
    if nodeId = n1 ∨ nodeId = n2 then (if nodeId = n1 then n2 else n1) :: r
    else r

/-- The number of parentless entries of a topology. -/
def rootCount (t : Topology) : Nat :=
  (t.filter (fun e => e.2.parent.isNone)).length

/-- The level clause of tree well-formedness for one entry: a parentless
entry sits at level 0, and any other entry's parent is a key of the map with
the child exactly one level below it. -/
def entryLevelOk (t : Topology) (e : String × TopologyNode) : Bool :=
  match e.2.parent with
  | none => e.2.level == 0
  | some p =>
    match alookup t p with
    | some pn => e.2.level == pn.level + 1
    | none => false

/-- Tree well-formedness (claim C2): exactly one parentless entry, every
parentless entry at level 0, and every other entry one level below its
parent, which is present in the map. -/
def treeWF (t : Topology) : Bool :=
  (rootCount t == 1) && t.all (fun e => entryLevelOk t e)

/-- The backhaul-band clause for one entry: the root carries no band, and any
other entry carries H exactly when its parent's level is even, else L. -/
def entryBandOk (t : Topology) (e : String × TopologyNode) : Bool :=
  match e.2.parent with
  | none => e.2.backhaul_band == none
  | some p =>
    match alookup t p with
    | some pn => e.2.backhaul_band == some (if pn.level % 2 = 0 then Band.H else Band.L)
    | none => false

/-- Band well-formedness of a tree (claim C5). -/
def treeBandWF (t : Topology) : Bool :=
  t.all (fun e => entryBandOk t e)

/-- Whether a result is an error whose structured details are all None. -/
def resultErrDetailsAllNone :
    Except ChannelAssignmentErrorData Topology → Bool
  | .error e =>
    e.node_id.isNone && e.band.isNone && e.attempted_channels.isNone &&
      e.conflict_nodes.isNone
  | .ok _ => false

/-! Basic lemmas about association-list lookup and entry update. -/

theorem alookup_mem {α β : Type} [DecidableEq α] {t : List (α × β)} {k : α} {v : β}
    (h : alookup t k = some v) : (k, v) ∈ t := by
  induction t with
  | nil => simp [alookup] at h
  | cons e rest ih =>
    obtain ⟨a, b⟩ := e
    by_cases hk : a = k
    · subst hk
      simp [alookup] at h
      subst h
      exact List.mem_cons_self _ _
    · simp [alookup, hk] at h
      exact List.mem_cons_of_mem _ (ih h)

theorem alookup_isSome_of_mem {α β : Type} [DecidableEq α] {t : List (α × β)} {k : α}
    {v : β} (h : (k, v) ∈ t) : (alookup t k).isSome := by
  induction t with
  | nil => simp at h
  | cons e rest ih =>
    obtain ⟨a, b⟩ := e
    by_cases hk : a = k
    · simp [alookup, hk]
    · simp [alookup, hk]
      rcases List.mem_cons.mp h with h1 | h1
      · simp at h1
        exact absurd h1.1.symm hk
      · exact ih h1

theorem alookup_append_left {α β : Type} [DecidableEq α] {t : List (α × β)} {k : α}
    {v : β} (l : List (α × β)) (h : alookup t k = some v) :
    alookup (t ++ l) k = some v := by
  induction t with
  | nil => simp [alookup] at h
  | cons e rest ih =>
    by_cases hk : e.1 = k
    · simp [alookup, hk] at h
      simp [alookup, hk, h]
    · simp only [alookup, hk, if_neg, List.cons_append, if_false] at h ⊢
      exact ih h

theorem alookup_updateNode (t : Topology) (k k' : String) (f : TopologyNode → TopologyNode) :
    alookup (updateNode t k f) k' =
      if k' = k then (alookup t k').map f else alookup t k' := by
  induction t with
  | nil => by_cases h : k' = k <;> simp [updateNode, alookup, h]
  | cons e rest ih =>
    obtain ⟨a, b⟩ := e
    simp only [updateNode, List.map_cons] at ih ⊢
    by_cases he : a = k
    · subst he
      by_cases hk : k' = a
      · subst hk
        simp [alookup, ih]
      · have hne : ¬ a = k' := fun hc => hk hc.symm
        simp [alookup, hne, hk, ih]
    · by_cases h2 : a = k'
      · subst h2
        have hk : ¬ a = k := he
        simp [alookup, hk]
      · simp [alookup, he, h2, ih]

/-! Claim C4: the candidate edge weight formula. -/

/-- Claim C4: for every candidate edge with parent in the tree and an
existing input edge, the computed weight is
THROUGHPUT_WEIGHT * max(0, (rssi + 100) * 10) + LOAD_WEIGHT * (load_p +
load_c) + HOP_WEIGHT * level_p, where rssi is the maximum of the four RSSI
samples of the edge (both bands, both directions). -/
theorem calcEdgeWeight_formula (cfg : TopologyConfig) (p c : String)
    (nodes : NodeMap) (edges : EdgeMap) (tree : Topology) (e : EdgeInfo)
    (np nc : NodeInfo) (tp : TopologyNode)
    (hedge : edgeLookup edges p c = some e)
    (hp : alookup nodes p = some np) (hc : alookup nodes c = some nc)
    (htree : alookup tree p = some tp) :
    calcEdgeWeight cfg p c nodes edges tree =
      some (cfg.THROUGHPUT_WEIGHT *
              max 0 (((max (max e.rssi_6gh.1 e.rssi_6gh.2)
                           (max e.rssi_6gl.1 e.rssi_6gl.2) : Int) + 100) * 10) +
            cfg.LOAD_WEIGHT * (np.load + nc.load) +
            cfg.HOP_WEIGHT * (tp.level : ℚ)) := by
  simp [calcEdgeWeight, hedge, hp, hc, htree, predictThroughput, EdgeInfo.rssiMax]

/-- Witness for C4 at a concrete edge. -/
theorem calcEdgeWeight_formula_witness :
    calcEdgeWeight defaultConfig "SN0" "SN1"
        [("SN0", ⟨(0, 0), 2, fun _ _ => [], fun _ _ => []⟩),
         ("SN1", ⟨(0, 0), 3, fun _ _ => [], fun _ _ => []⟩)]
        [(("SN0", "SN1"), ⟨(-60, -62), (-55, -57)⟩)]
        [("SN0", ⟨none, none, 0, [], [], []⟩)] =
      some (defaultConfig.THROUGHPUT_WEIGHT *
              max 0 (((max (max (-60 : Int) (-62)) (max (-55) (-57)) : Int) + 100) * 10) +
            defaultConfig.LOAD_WEIGHT * (2 + 3) +
            defaultConfig.HOP_WEIGHT * ((0 : Nat) : ℚ)) :=
  calcEdgeWeight_formula defaultConfig "SN0" "SN1" _ _ _
    ⟨(-60, -62), (-55, -57)⟩
    ⟨(0, 0), 2, fun _ _ => [], fun _ _ => []⟩
    ⟨(0, 0), 3, fun _ _ => [], fun _ _ => []⟩
    ⟨none, none, 0, [], [], []⟩
    (by rfl) (by rfl) (by rfl) (by rfl)

/-! Tree well-formedness is preserved by attaching a child below a present
parent, which is what every pass of the Prim loop does. -/

theorem entryLevelOk_parent_none {t : Topology} {e : String × TopologyNode}
    (h : e.2.parent = none) : entryLevelOk t e = (e.2.level == 0) := by
  unfold entryLevelOk
  rw [h]

theorem entryLevelOk_parent_some {t : Topology} {e : String × TopologyNode} {p : String}
    (h : e.2.parent = some p) :
    entryLevelOk t e =
      (match alookup t p with
       | some pn => e.2.level == pn.level + 1
       | none => false) := by
  unfold entryLevelOk
  rw [h]

theorem entryBandOk_parent_none {t : Topology} {e : String × TopologyNode}
    (h : e.2.parent = none) : entryBandOk t e = (e.2.backhaul_band == none) := by
  unfold entryBandOk
  rw [h]

theorem entryBandOk_parent_some {t : Topology} {e : String × TopologyNode} {p : String}
    (h : e.2.parent = some p) :
    entryBandOk t e =
      (match alookup t p with
       | some pn =>
         e.2.backhaul_band == some (if pn.level % 2 = 0 then Band.H else Band.L)
       | none => false) := by
  unfold entryBandOk
  rw [h]

theorem entryLevelOk_append {tree : Topology} (x : String × TopologyNode)
    {e : String × TopologyNode} (h : entryLevelOk tree e = true) :
    entryLevelOk (tree ++ [x]) e = true := by
  cases hpar : e.2.parent with
  | none =>
    rw [entryLevelOk_parent_none hpar] at h ⊢
    exact h
  | some p =>
    rw [entryLevelOk_parent_some hpar] at h ⊢
    cases hal : alookup tree p with
    | none => rw [hal] at h; simp at h
    | some pn =>
      rw [hal] at h
      rw [alookup_append_left _ hal]
      exact h

theorem entryBandOk_append {tree : Topology} (x : String × TopologyNode)
    {e : String × TopologyNode} (h : entryBandOk tree e = true) :
    entryBandOk (tree ++ [x]) e = true := by
  cases hpar : e.2.parent with
  | none =>
    rw [entryBandOk_parent_none hpar] at h ⊢
    exact h
  | some p =>
    rw [entryBandOk_parent_some hpar] at h ⊢
    cases hal : alookup tree p with
    | none => rw [hal] at h; simp at h
    | some pn =>
      rw [hal] at h
      rw [alookup_append_left _ hal]
      exact h

theorem treeWF_append {tree : Topology} {p c : String} {pn : TopologyNode}
    (nd : TopologyNode) (hwf : treeWF tree = true) (hp : alookup tree p = some pn)
    (hpar : nd.parent = some p) (hlvl : nd.level = pn.level + 1) :
    treeWF (tree ++ [(c, nd)]) = true := by
  simp only [treeWF, Bool.and_eq_true, beq_iff_eq, List.all_eq_true] at hwf ⊢
  obtain ⟨hcount, hall⟩ := hwf
  constructor
  · simp only [rootCount, List.filter_append] at hcount ⊢
    simp [hpar, hcount]
  · intro e he
    rcases List.mem_append.mp he with h1 | h1
    · exact entryLevelOk_append _ (hall e h1)
    · rcases List.mem_singleton.mp h1 with rfl
      simp [entryLevelOk, hpar, alookup_append_left _ hp, hlvl]

theorem treeBandWF_append {tree : Topology} {p c : String} {pn : TopologyNode}
    (nd : TopologyNode) (hwf : treeBandWF tree = true) (hp : alookup tree p = some pn)
    (hpar : nd.parent = some p)
    (hband : nd.backhaul_band = some (if pn.level % 2 = 0 then Band.H else Band.L)) :
    treeBandWF (tree ++ [(c, nd)]) = true := by
  simp only [treeBandWF, List.all_eq_true] at hwf ⊢
  intro e he
  rcases List.mem_append.mp he with h1 | h1
  · exact entryBandOk_append _ (hwf e h1)
  · rcases List.mem_singleton.mp h1 with rfl
    simp [entryBandOk, hpar, alookup_append_left _ hp, hband]

theorem primPost_ok {tree t : Topology} {ic mi : Nat} (h : primPost tree ic mi = .ok t) :
    t = tree := by
  unfold primPost at h
  split at h
  · exact absurd h (by simp)
  · injection h with h
    exact h.symm

theorem primLoop_wf (cfg : TopologyConfig) (nodes : NodeMap) (edges : EdgeMap) :
    ∀ (fuel : Nat) (sel unsel : List String) (tree : Topology) (ic mi : Nat)
      (t : Topology), treeWF tree = true → treeBandWF tree = true →
      primLoop cfg nodes edges fuel sel unsel tree ic mi = .ok t →
      treeWF t = true ∧ treeBandWF t = true := by
  intro fuel
  induction fuel with
  | zero =>
    intro sel unsel tree ic mi t hwf hband hrun
    rw [primLoop] at hrun
    rcases primPost_ok hrun with rfl
    exact ⟨hwf, hband⟩
  | succ fuel ih =>
    intro sel unsel tree ic mi t hwf hband hrun
    rw [primLoop] at hrun
    by_cases hcond : unsel.isEmpty || decide (mi ≤ ic)
    · rw [if_pos hcond] at hrun
      rcases primPost_ok hrun with rfl
      exact ⟨hwf, hband⟩
    · rw [if_neg hcond] at hrun
      split at hrun
      · rcases primPost_ok hrun with rfl
        exact ⟨hwf, hband⟩
      · split at hrun
        · simp at hrun
        · next p c w pn hal =>
          exact ih _ _ _ _ _ _
            (treeWF_append _ hwf hal rfl rfl)
            (treeBandWF_append _ hband hal rfl rfl) hrun

theorem generateTree_wf {cfg : TopologyConfig} {nodes : NodeMap} {edges : EdgeMap}
    {t : Topology} (h : generateTree cfg nodes edges = .ok t) :
    treeWF t = true ∧ treeBandWF t = true := by
  unfold generateTree at h
  cases nodes with
  | nil => exact absurd h (by simp)
  | cons hd rest =>
    obtain ⟨rootId, info⟩ := hd
    refine primLoop_wf _ _ _ _ _ _ _ _ _ _ ?_ ?_ h
    · simp [treeWF, rootCount, entryLevelOk]
    · simp [treeBandWF, entryBandOk]

/-- Claim C2: for every non-empty node map, a tree returned by
`_generate_tree` is well-formed — exactly one entry is parentless and sits at
level 0, and every other entry's parent is a key of the returned map with the
child exactly one level below it. -/
theorem generateTree_wellformed (cfg : TopologyConfig) (nodes : NodeMap)
    (edges : EdgeMap) (t : Topology) (_hne : nodes ≠ [])
    (h : generateTree cfg nodes edges = .ok t) : treeWF t = true :=
  (generateTree_wf h).1

/-- Claim C5: in every tree returned by `_generate_tree`, the root's backhaul
band is null, and every non-root node's backhaul band is H exactly when its
parent's level is even, else L. -/
theorem generateTree_backhaulBands (cfg : TopologyConfig) (nodes : NodeMap)
    (edges : EdgeMap) (t : Topology) (_hne : nodes ≠ [])
    (h : generateTree cfg nodes edges = .ok t) : treeBandWF t = true :=
  (generateTree_wf h).2

/-! Concrete inputs used by the closed witnesses: two nodes joined by one
strong edge.  The node descriptions carry one 160M channel per band plus one
80M channel on 6GH, with matching EIRP lists. -/

/-- A concrete node description for witness runs. -/
def wInfo (chH chL : List Int) (eiH eiL : List ℚ) : NodeInfo :=
  ⟨(0, 0), 0,
   fun b bw =>
     match b, bw with
     | .H, .w160 => chH
     | .L, .w160 => chL
     | .H, .w80 => [103]
     | _, _ => [],
   fun b bw =>
     match b, bw with
     | .H, .w160 => eiH
     | .L, .w160 => eiL
     | .H, .w80 => [20]
     | _, _ => []⟩

/-- Witness node map: SN0 and SN1 with identical radios. -/
def wNodes : NodeMap :=
  [("SN0", wInfo [149] [33] [30] [24]),
   ("SN1", wInfo [149] [33] [30] [24])]

/-- Witness edge map: one strong edge SN0 to SN1. -/
def wEdges : EdgeMap :=
  [(("SN0", "SN1"), ⟨(-60, -60), (-55, -55)⟩)]

/-- The tree the generator returns on the witness input. -/
def wTree : Topology :=
  [("SN0", ⟨none, none, 0, [], [], []⟩),
   ("SN1", ⟨some "SN0", some Band.H, 1, [], [], []⟩)]

/-- The planned topology the assigner returns on the witness input. -/
def wTopo : Topology :=
  [("SN0", ⟨none, none, 0, [149, 33], [160, 160], [30, 24]⟩),
   ("SN1", ⟨some "SN0", some Band.H, 1, [103], [80], [20]⟩)]

/-- Witness for C2: the generator's tree on the two-node input is
well-formed. -/
theorem generateTree_wellformed_witness : treeWF wTree = true :=
  generateTree_wellformed defaultConfig wNodes wEdges wTree
    (List.cons_ne_nil _ _) (by rfl)

/-- Witness for C5: the backhaul bands of the two-node tree follow parent
level parity. -/
theorem generateTree_backhaulBands_witness : treeBandWF wTree = true :=
  generateTree_backhaulBands defaultConfig wNodes wEdges wTree
    (List.cons_ne_nil _ _) (by rfl)

/-! Claim C1 machinery: conflicting neighbours always land in the conflict
set, their channels always land in the used set, and a picked channel is
never in the used set; hence every assignment step preserves pairwise
disjointness. -/

theorem getConflictNodes_mem (cfg : TopologyConfig) {m x : String} {e : EdgeInfo}
    (topology : Topology) {edges : EdgeMap}
    (hmem : ((m, x), e) ∈ edges ∨ ((x, m), e) ∈ edges)
    (hth : cfg.RSSI_CONFLICT_THRESHOLD ≤ e.rssiMax) :
    m ∈ getConflictNodes cfg x topology edges := by
  induction edges with
  | nil => simp at hmem
  | cons ed rest ih =>
    obtain ⟨⟨n1, n2⟩, ei⟩ := ed
    have tail_sub : m ∈ getConflictNodes cfg x topology rest →
        m ∈ getConflictNodes cfg x topology (((n1, n2), ei) :: rest) := by
      intro hr
      unfold getConflictNodes
      split
      · split
        · exact List.mem_cons_of_mem _ hr
        · exact hr
      · exact hr
    rcases hmem with hor | hor
    · rcases List.mem_cons.mp hor with heq | hrest
      · obtain ⟨h1, h2⟩ := Prod.mk.injEq .. ▸ heq
        obtain ⟨h1a, h1b⟩ := Prod.mk.injEq .. ▸ h1
        subst h1a; subst h1b; subst h2
        unfold getConflictNodes
        rw [if_pos (Or.inr rfl), if_pos hth]
        by_cases hxm : x = m
        · subst hxm
          rw [if_pos rfl]
          exact List.mem_cons_self _ _
        · rw [if_neg hxm]
          exact List.mem_cons_self _ _
      · exact tail_sub (ih (Or.inl hrest))
    · rcases List.mem_cons.mp hor with heq | hrest
      · obtain ⟨h1, h2⟩ := Prod.mk.injEq .. ▸ heq
        obtain ⟨h1a, h1b⟩ := Prod.mk.injEq .. ▸ h1
        subst h1a; subst h1b; subst h2
        unfold getConflictNodes
        rw [if_pos (Or.inl rfl), if_pos hth, if_pos rfl]
        exact List.mem_cons_self _ _
      · exact tail_sub (ih (Or.inr hrest))

theorem usedChannelsOf_mem {topology : Topology} {conflicts : List String}
    {m : String} {tm : TopologyNode} {ch : Int} (hm : m ∈ conflicts)
    (hl : alookup topology m = some tm) (hch : ch ∈ tm.channel) :
    ch ∈ usedChannelsOf topology conflicts := by
  induction conflicts with
  | nil => simp at hm
  | cons y rest ih =>
    rcases List.mem_cons.mp hm with rfl | hrest
    · unfold usedChannelsOf
      rw [hl]
      have hne : tm.channel.isEmpty = false := by
        cases hc : tm.channel with
        | nil => rw [hc] at hch; simp at hch
        | cons a b => simp
      simp [hne, hch]
    · have hr := ih hrest
      unfold usedChannelsOf
      cases alookup topology y with
      | none => exact hr
      | some ty =>
        by_cases hemp : ty.channel.isEmpty
        · simp [hemp, hr]
        · simp only [Bool.not_eq_true] at hemp
          simp [hemp, hr]

theorem avail_mem_spec {σ : List Int → List Int → List Int} (hσ : AvailOrder σ)
    {device used : List Int} {c : Int} (h : c ∈ σ device used) :
    c ∈ device ∧ c ∉ used := by
  have hmem := (hσ device used).mem_iff.mp h
  rw [List.mem_filter] at hmem
  exact ⟨List.mem_dedup.mp hmem.1, of_decide_eq_true hmem.2⟩

/-- The reference materialisation order enumerates exactly the set
difference. -/
theorem pyOrderRef_spec : AvailOrder pyOrderRef :=
  fun _ _ => List.Perm.refl _

/-- Claim C1's invariant: for any two distinct nodes of the map joined by an
input edge (in either orientation) whose strongest RSSI sample reaches the
conflict threshold, no assigned channel of one appears among the assigned
channels of the other. -/
def ConflictFree (cfg : TopologyConfig) (edges : EdgeMap) (topology : Topology) : Prop :=
  ∀ m n tm tn e, m ≠ n →
    alookup topology m = some tm → alookup topology n = some tn →
    (((m, n), e) ∈ edges ∨ ((n, m), e) ∈ edges) →
    cfg.RSSI_CONFLICT_THRESHOLD ≤ e.rssiMax →
    ∀ c ∈ tm.channel, c ∉ tn.channel

theorem alookup_appendAssign (topology : Topology) (x y : String) (c : Int)
    (bw : Nat) (ei : ℚ) :
    alookup (appendAssign topology x c bw ei) y =
      if y = x then
        (alookup topology y).map (fun t =>
          ⟨t.parent, t.backhaul_band, t.level, t.channel ++ [c], t.bandwidth ++ [bw],
            t.max_eirp ++ [ei]⟩)
      else alookup topology y := by
  unfold appendAssign
  exact alookup_updateNode topology x y _

theorem ConflictFree_appendAssign {cfg : TopologyConfig} {edges : EdgeMap}
    {topology : Topology} {x : String} {c : Int} {bw : Nat} {ei : ℚ}
    (hcf : ConflictFree cfg edges topology)
    (hc : c ∉ usedChannelsOf topology (getConflictNodes cfg x topology edges)) :
    ConflictFree cfg edges (appendAssign topology x c bw ei) := by
  intro m n tm tn e hmn hm hn hedge hth ch hch
  rw [alookup_appendAssign] at hm hn
  by_cases hmx : m = x
  · subst hmx
    rw [if_pos rfl] at hm
    have hnx : ¬ n = m := fun hcontra => hmn hcontra.symm
    rw [if_neg hnx] at hn
    obtain ⟨tx, htx, rfl⟩ := Option.map_eq_some'.mp hm
    rcases List.mem_append.mp hch with hold | hnew
    · exact hcf m n tx tn e hmn htx hn hedge hth ch hold
    · rcases List.mem_singleton.mp hnew with rfl
      intro hin
      exact hc (usedChannelsOf_mem
        (getConflictNodes_mem cfg topology (Or.symm hedge) hth) hn hin)
  · rw [if_neg hmx] at hm
    by_cases hnx : n = x
    · subst hnx
      rw [if_pos rfl] at hn
      obtain ⟨tx, htx, rfl⟩ := Option.map_eq_some'.mp hn
      intro hin
      rcases List.mem_append.mp hin with hold | hnew
      · exact hcf m n tm tx e hmn hm htx hedge hth ch hch hold
      · rcases List.mem_singleton.mp hnew with rfl
        exact hc (usedChannelsOf_mem
          (getConflictNodes_mem cfg topology hedge hth) hm hch)
    · rw [if_neg hnx] at hn
      exact hcf m n tm tn e hmn hm hn hedge hth ch hch

theorem tryBandwidths_ok_some {σ : List Int → List Int → List Int} {x : String}
    {info : NodeInfo} {band : Band} {conflicts : List String}
    {topology t2 : Topology} :
    ∀ {bws : List BWidth},
      tryBandwidths σ x info band conflicts topology bws = .ok (some t2) →
      ∃ bw c ei, c ∈ getAvailableChannels σ info band bw conflicts topology ∧
        t2 = appendAssign topology x c bw.mhz ei := by
  intro bws
  induction bws with
  | nil => intro h; simp [tryBandwidths] at h
  | cons bw rest ih =>
    intro h
    rw [tryBandwidths] at h
    split at h
    · exact ih h
    · next c cs heq =>
      simp only [] at h
      split at h
      · simp at h
      · next ei hei =>
        injection h with h
        injection h with h
        exact ⟨bw, c, ei, heq ▸ List.mem_cons_self _ _, h.symm⟩

theorem processNode_ok {σ : List Int → List Int → List Int} {cfg : TopologyConfig}
    {x : String} {topology t2 : Topology} {nodes : NodeMap} {edges : EdgeMap}
    (h : processNode σ cfg x topology nodes edges = .ok t2) :
    ∃ info band bw c ei, alookup nodes x = some info ∧
      c ∈ getAvailableChannels σ info band bw
            (getConflictNodes cfg x topology edges) topology ∧
      t2 = appendAssign topology x c bw.mhz ei := by
  unfold processNode at h
  split at h
  · simp at h
  · split at h
    · simp at h
    · split at h
      · simp at h
      · next b hb =>
        split at h
        · simp at h
        · next t2h heq =>
          injection h with h
          subst h
          unfold tryAssignChannel at heq
          split at heq
          · simp at heq
          · next info hinfo =>
            obtain ⟨bw, c, ei, hcmem, ht⟩ := tryBandwidths_ok_some heq
            exact ⟨info, b, bw, c, ei, hinfo, hcmem, ht⟩
        · split at h
          · simp at h
          · next t2h heq =>
            injection h with h
            subst h
            unfold assignMinimumBandwidth at heq
            split at heq
            · simp at heq
            · next info hinfo =>
              obtain ⟨bw, c, ei, hcmem, ht⟩ := tryBandwidths_ok_some heq
              exact ⟨info, b, bw, c, ei, hinfo, hcmem, ht⟩
          · simp at h

theorem processNode_cf {σ : List Int → List Int → List Int} (hσ : AvailOrder σ)
    {cfg : TopologyConfig} {x : String} {topology t2 : Topology} {nodes : NodeMap}
    {edges : EdgeMap} (hcf : ConflictFree cfg edges topology)
    (h : processNode σ cfg x topology nodes edges = .ok t2) :
    ConflictFree cfg edges t2 := by
  obtain ⟨info, band, bw, c, ei, hinfo, hcmem, rfl⟩ := processNode_ok h
  exact ConflictFree_appendAssign hcf (avail_mem_spec hσ hcmem).2

theorem nodesLoop_cf {σ : List Int → List Int → List Int} (hσ : AvailOrder σ)
    (cfg : TopologyConfig) (nodes : NodeMap) (edges : EdgeMap) :
    ∀ (xs : List String) (topology t : Topology),
      ConflictFree cfg edges topology →
      nodesLoop σ cfg xs topology nodes edges = .ok t →
      ConflictFree cfg edges t := by
  intro xs
  induction xs with
  | nil =>
    intro topology t hcf h
    rw [nodesLoop] at h
    injection h with h
    exact h ▸ hcf
  | cons x rest ih =>
    intro topology t hcf h
    rw [nodesLoop] at h
    split at h
    · simp at h
    · next t2 heq =>
      exact ih t2 t (processNode_cf hσ hcf heq) h

theorem levelsLoop_cf {σ : List Int → List Int → List Int} (hσ : AvailOrder σ)
    (cfg : TopologyConfig) (base : Topology) (nodes : NodeMap) (edges : EdgeMap) :
    ∀ (ls : List Nat) (topology t : Topology),
      ConflictFree cfg edges topology →
      levelsLoop σ cfg base ls topology nodes edges = .ok t →
      ConflictFree cfg edges t := by
  intro ls
  induction ls with
  | nil =>
    intro topology t hcf h
    rw [levelsLoop] at h
    injection h with h
    exact h ▸ hcf
  | cons l rest ih =>
    intro topology t hcf h
    rw [levelsLoop] at h
    split at h
    · split at h
      · simp at h
      · next t2 heq =>
        exact ih t2 t (nodesLoop_cf hσ cfg nodes edges _ topology t2 hcf heq) h
    · simp at h

theorem assignRootBand_other {rootId : String} {topology : Topology} {info : NodeInfo}
    {band : Band} {t1 : Topology} {y : String}
    (h : assignRootBand rootId topology info band = .ok t1) (hy : ¬ y = rootId) :
    alookup t1 y = alookup topology y := by
  unfold assignRootBand at h
  split at h
  · injection h with h
    rw [← h]
  · split at h
    · simp at h
    · injection h with h
      rw [← h, alookup_appendAssign, if_neg hy]

theorem assignRootChannels_other {rootId : String} {topology : Topology}
    {nodes : NodeMap} {t1 : Topology} {y : String}
    (h : assignRootChannels rootId topology nodes = .ok t1) (hy : ¬ y = rootId) :
    alookup t1 y = alookup topology y := by
  unfold assignRootChannels at h
  split at h
  · simp at h
  · next info hinfo =>
    split at h
    · simp at h
    · next ta hH =>
      rw [assignRootBand_other h hy, assignRootBand_other hH hy]

theorem cf_after_root {cfg : TopologyConfig} {edges : EdgeMap} {rootId : String}
    {topology : Topology} {nodes : NodeMap} {t1 : Topology}
    (hempty : ∀ e ∈ topology, e.2.channel = [])
    (h : assignRootChannels rootId topology nodes = .ok t1) :
    ConflictFree cfg edges t1 := by
  intro m n tm tn e hmn hm hn hedge hth ch hch
  by_cases hmx : m = rootId
  · have hnx : ¬ n = rootId := fun hc => hmn (hmx.trans hc.symm)
    rw [assignRootChannels_other h hnx] at hn
    have : tn.channel = [] := hempty _ (alookup_mem hn)
    rw [this]
    exact List.not_mem_nil ch
  · rw [assignRootChannels_other h hmx] at hm
    have : tm.channel = [] := hempty _ (alookup_mem hm)
    rw [this] at hch
    exact absurd hch (List.not_mem_nil ch)

theorem primLoop_channels_empty (cfg : TopologyConfig) (nodes : NodeMap)
    (edges : EdgeMap) :
    ∀ (fuel : Nat) (sel unsel : List String) (tree : Topology) (ic mi : Nat)
      (t : Topology), (∀ e ∈ tree, e.2.channel = []) →
      primLoop cfg nodes edges fuel sel unsel tree ic mi = .ok t →
      ∀ e ∈ t, e.2.channel = [] := by
  intro fuel
  induction fuel with
  | zero =>
    intro sel unsel tree ic mi t hemp hrun
    rw [primLoop] at hrun
    rcases primPost_ok hrun with rfl
    exact hemp
  | succ fuel ih =>
    intro sel unsel tree ic mi t hemp hrun
    rw [primLoop] at hrun
    by_cases hcond : unsel.isEmpty || decide (mi ≤ ic)
    · rw [if_pos hcond] at hrun
      rcases primPost_ok hrun with rfl
      exact hemp
    · rw [if_neg hcond] at hrun
      split at hrun
      · rcases primPost_ok hrun with rfl
        exact hemp
      · split at hrun
        · simp at hrun
        · next p c w pn hal =>
          refine ih _ _ _ _ _ _ ?_ hrun
          intro e he
          rcases List.mem_append.mp he with h1 | h1
          · exact hemp e h1
          · rcases List.mem_singleton.mp h1 with rfl
            rfl

theorem generateTree_channels_empty {cfg : TopologyConfig} {nodes : NodeMap}
    {edges : EdgeMap} {t : Topology} (h : generateTree cfg nodes edges = .ok t) :
    ∀ e ∈ t, e.2.channel = [] := by
  unfold generateTree at h
  cases nodes with
  | nil => exact absurd h (by simp)
  | cons hd rest =>
    obtain ⟨rootId, info⟩ := hd
    refine primLoop_channels_empty _ _ _ _ _ _ _ _ _ _ ?_ h
    intro e he
    rcases List.mem_singleton.mp he with rfl
    rfl

theorem assignChannels_cf {σ : List Int → List Int → List Int} (hσ : AvailOrder σ)
    {cfg : TopologyConfig} {topology t : Topology} {nodes : NodeMap} {edges : EdgeMap}
    (hempty : ∀ e ∈ topology, e.2.channel = [])
    (h : assignChannels σ cfg topology nodes edges = .ok t) :
    ConflictFree cfg edges t := by
  unfold assignChannels at h
  split at h
  · simp at h
  · split at h
    · simp at h
    · next rootEntry hfind =>
      split at h
      · simp at h
      · next t1 heq =>
        exact levelsLoop_cf hσ cfg t1 nodes edges _ t1 t
          (cf_after_root hempty heq) h

/-- Claim C1: in every successful plan (a tree produced by `_generate_tree`
followed by a successful `assign_channels` run), any two distinct output
nodes joined by an input edge — in either orientation — whose strongest RSSI
sample is at least RSSI_CONFLICT_THRESHOLD have disjoint channel sets.  The
result holds for every materialisation order of the Python set difference
inside `_get_available_channels`. -/
theorem plan_conflict_channels_disjoint (σ : List Int → List Int → List Int)
    (cfg : TopologyConfig) (nodes : NodeMap) (edges : EdgeMap)
    (tree topo : Topology) (m n : String) (tm tn : TopologyNode) (e : EdgeInfo)
    (hσ : AvailOrder σ)
    (htree : generateTree cfg nodes edges = .ok tree)
    (hassign : assignChannels σ cfg tree nodes edges = .ok topo)
    (hmn : m ≠ n)
    (hm : alookup topo m = some tm) (hn : alookup topo n = some tn)
    (hedge : ((m, n), e) ∈ edges ∨ ((n, m), e) ∈ edges)
    (hth : cfg.RSSI_CONFLICT_THRESHOLD ≤ e.rssiMax) :
    ∀ c ∈ tm.channel, c ∉ tn.channel :=
  assignChannels_cf hσ (generateTree_channels_empty htree) hassign
    m n tm tn e hmn hm hn hedge hth

/-- Witness for C1: on the two-node input, the root holds channels 149 and
33 while the conflicting child holds 103; channel 149 of the root is indeed
not among the child's channels. -/
theorem plan_conflict_channels_disjoint_witness : (149 : Int) ∉ ([103] : List Int) :=
  plan_conflict_channels_disjoint pyOrderRef defaultConfig wNodes wEdges
    wTree wTopo "SN0" "SN1"
    ⟨none, none, 0, [149, 33], [160, 160], [30, 24]⟩
    ⟨some "SN0", some Band.H, 1, [103], [80], [20]⟩
    ⟨(-60, -60), (-55, -55)⟩
    pyOrderRef_spec (by rfl) (by rfl) (by decide) (by rfl) (by rfl)
    (Or.inl (by decide)) (by decide)
    149 (by decide)

/-! Claim C10: validated edges always clear the default conflict threshold. -/

theorem validateEdgeRssi_rssiMax {e : EdgeInfo}
    (h : validateEdgeRssi e.rssi_6gh e.rssi_6gl = true) : (-85 : Int) < e.rssiMax := by
  unfold validateEdgeRssi at h
  simp only [Bool.and_eq_true] at h
  have hnot := h.2
  unfold EdgeInfo.rssiMax
  by_cases h1 : e.rssi_6gh.1 ≤ -85
  · by_cases h2 : e.rssi_6gh.2 ≤ -85
    · by_cases h3 : e.rssi_6gl.1 ≤ -85
      · by_cases h4 : e.rssi_6gl.2 ≤ -85
        · rw [decide_eq_true h1, decide_eq_true h2, decide_eq_true h3,
            decide_eq_true h4] at hnot
          simp at hnot
        · exact lt_of_lt_of_le (not_le.mp h4) (le_max_of_le_right (le_max_right _ _))
      · exact lt_of_lt_of_le (not_le.mp h3) (le_max_of_le_right (le_max_left _ _))
    · exact lt_of_lt_of_le (not_le.mp h2) (le_max_of_le_left (le_max_right _ _))
  · exact lt_of_lt_of_le (not_le.mp h1) (le_max_of_le_left (le_max_left _ _))

theorem getConflictNodes_all_neighbors (x : String) (topology : Topology) :
    ∀ (edges : EdgeMap), (∀ p ∈ edges, (-85 : Int) < p.2.rssiMax) →
      ∀ m, m ∈ getConflictNodes defaultConfig x topology edges ↔
        m ∈ neighborsOf x edges := by
  intro edges
  induction edges with
  | nil => intro _ m; simp [getConflictNodes, neighborsOf]
  | cons ed rest ih =>
    intro h m
    obtain ⟨⟨n1, n2⟩, ei⟩ := ed
    have hthr : defaultConfig.RSSI_CONFLICT_THRESHOLD ≤ ei.rssiMax :=
      le_of_lt (h _ (List.mem_cons_self _ _))
    have ihm := ih (fun p hp => h p (List.mem_cons_of_mem _ hp)) m
    unfold getConflictNodes neighborsOf
    by_cases hx : x = n1 ∨ x = n2
    · rw [if_pos hx, if_pos hthr, if_pos hx]
      simp [List.mem_cons, ihm]
    · rw [if_neg hx, if_neg hx]
      exact ihm

/-- Claim C10: every edge accepted by the RSSI validation of api.py
`validate_edge_data` has a strongest sample above -85, so under the default
configuration the conflict set of any node is exactly its neighbour set in
the edge map. -/
theorem validated_edges_conflict_set_is_neighbors (x : String)
    (topology : Topology) (edges : EdgeMap)
    (hval : ∀ p ∈ edges, validateEdgeRssi p.2.rssi_6gh p.2.rssi_6gl = true) :
    (∀ p ∈ edges, (-85 : Int) < p.2.rssiMax) ∧
    (∀ m, m ∈ getConflictNodes defaultConfig x topology edges ↔
      m ∈ neighborsOf x edges) := by
  have hstr : ∀ p ∈ edges, (-85 : Int) < p.2.rssiMax :=
    fun p hp => validateEdgeRssi_rssiMax (hval p hp)
  exact ⟨hstr, getConflictNodes_all_neighbors x topology edges hstr⟩

/-- Witness for C10 on the concrete strong edge. -/
theorem validated_edges_conflict_set_is_neighbors_witness :
    "SN1" ∈ getConflictNodes defaultConfig "SN0" [] wEdges ↔
      "SN1" ∈ neighborsOf "SN0" wEdges :=
  (validated_edges_conflict_set_is_neighbors "SN0" [] wEdges (by decide)).2 "SN1"

/-! Claim C6: the documented `maxEirp` field name is accepted by api.py's
validation but rejected by the NodeInfo dataclass constructor, and rejected
outright by validators.py's validation. -/

/-- The field names of the documented nodes payload (spec section 6). -/
def documentedNodeKeys : List String :=
  ["gps", "load", "channels", "maxEirp"]

/-- Claim C6 evaluated on the documented payload shape: api.py
`validate_node_data` accepts the keys, `NodeInfo(**payload)` rejects them (the
dataclass field is `max_eirp` and nothing maps the name), so the api decode
pipeline cannot produce a NodeInfo from the documented shape; the
validators.py validation rejects the shape as well. -/
theorem maxEirp_payload_never_decodes :
    apiValidateNodeFieldsOk documentedNodeKeys = true ∧
    nodeInfoKwargsOk documentedNodeKeys = false ∧
    apiNodeDecodeOk documentedNodeKeys = false ∧
    validatorsValidateNodeFieldsOk documentedNodeKeys = false := by
  decide

/-! Claim C7: edge-key validation. -/

/-- Counterexample for C7: the key SN5_SN7 passes api.py's key check although
neither half occurs in the (empty) nodes map, so acceptance is not the
claimed iff — the nodes map is never consulted. -/
theorem edgeKey_accepted_without_nodes :
    edgeKeyFormatOk "SN5_SN7" = true ∧ edgeKeyOkSpec "SN5_SN7" [] = false := by
  decide

/-- Claim C7 amended: the key is split at every underscore and accepted
exactly when that split yields two pieces that both start with SN — the nodes
map plays no part — and a stored edge can be looked up in either orientation
through `edges.get((a, b)) or edges.get((b, a))`. -/
theorem edgeKeyFormat_amended (key : String) (edges : EdgeMap) (a b : String)
    (e : EdgeInfo) :
    (edgeKeyFormatOk key = true ↔
      ∃ x y, pySplitUnderscore key = [x, y] ∧ startsWithSN x = true ∧
        startsWithSN y = true) ∧
    (((a, b), e) ∈ edges →
      (edgeLookup edges a b).isSome ∧ (edgeLookup edges b a).isSome) := by
  constructor
  · unfold edgeKeyFormatOk
    cases hsp : pySplitUnderscore key with
    | nil => simp
    | cons x rest =>
      cases rest with
      | nil => simp
      | cons y rest2 =>
        cases rest2 with
        | nil =>
          simp only [Bool.and_eq_true]
          constructor
          · rintro ⟨hx, hy⟩
            exact ⟨x, y, rfl, hx, hy⟩
          · rintro ⟨x', y', heq, hx, hy⟩
            injection heq with e1 e2
            injection e2 with e2 _
            subst e1; subst e2
            exact ⟨hx, hy⟩
        | cons z rest3 => simp
  · intro hmem
    have h1 := alookup_isSome_of_mem hmem
    constructor
    · unfold edgeLookup
      cases hab : alookup edges (a, b) with
      | none => rw [hab] at h1; simp at h1
      | some e1 => simp
    · unfold edgeLookup
      cases hba : alookup edges (b, a) with
      | some e2 => simp
      | none => exact h1

/-- Witness for C7 amended: the stored orientation SN0 to SN1 is also found
when looked up as SN1 to SN0. -/
theorem edgeKeyFormat_amended_witness : (edgeLookup wEdges "SN1" "SN0").isSome :=
  ((edgeKeyFormat_amended "SN0_SN1" wEdges "SN0" "SN1"
    ⟨(-60, -60), (-55, -55)⟩).2 (by decide)).2

/-! Claim C8: the processing order inside a level. -/

theorem insertByLoadDesc_perm (nodes : NodeMap) (x : String) :
    ∀ l, List.Perm (insertByLoadDesc nodes x l) (x :: l) := by
  intro l
  induction l with
  | nil => exact List.Perm.refl _
  | cons y ys ih =>
    unfold insertByLoadDesc
    by_cases hle : loadOf nodes y ≤ loadOf nodes x
    · rw [if_pos hle]
    · rw [if_neg hle]
      exact (ih.cons y).trans (List.Perm.swap x y ys)

theorem sortNodesByLoad_perm (nodes : NodeMap) :
    ∀ ns, List.Perm (sortNodesByLoad ns nodes) ns := by
  intro ns
  induction ns with
  | nil => exact List.Perm.refl _
  | cons x rest ih =>
    unfold sortNodesByLoad
    exact ((insertByLoadDesc_perm nodes x _).trans (ih.cons x))

theorem insertByLoadDesc_pairwise (nodes : NodeMap) (x : String) :
    ∀ l, List.Pairwise (fun a b => loadOf nodes b ≤ loadOf nodes a) l →
      List.Pairwise (fun a b => loadOf nodes b ≤ loadOf nodes a)
        (insertByLoadDesc nodes x l) := by
  intro l
  induction l with
  | nil => intro _; simp [insertByLoadDesc]
  | cons y ys ih =>
    intro hp
    rcases List.pairwise_cons.mp hp with ⟨hy, hys⟩
    unfold insertByLoadDesc
    by_cases hle : loadOf nodes y ≤ loadOf nodes x
    · rw [if_pos hle]
      refine List.pairwise_cons.mpr ⟨?_, hp⟩
      intro z hz
      rcases List.mem_cons.mp hz with rfl | hz
      · exact hle
      · exact le_trans (hy z hz) hle
    · rw [if_neg hle]
      refine List.pairwise_cons.mpr ⟨?_, ih hys⟩
      intro z hz
      have hz' := (insertByLoadDesc_perm nodes x ys).mem_iff.mp hz
      rcases List.mem_cons.mp hz' with rfl | hz'
      · exact le_of_lt (not_le.mp hle)
      · exact hy z hz'

theorem sortNodesByLoad_pairwise (nodes : NodeMap) :
    ∀ ns, List.Pairwise (fun a b => loadOf nodes b ≤ loadOf nodes a)
      (sortNodesByLoad ns nodes) := by
  intro ns
  induction ns with
  | nil => simp [sortNodesByLoad]
  | cons x rest ih =>
    unfold sortNodesByLoad
    exact insertByLoadDesc_pairwise nodes x _ ih

theorem filter_class_cons_pos (nodes : NodeMap) (q : ℚ) (a : String) (l : List String)
    (h : loadOf nodes a = q) :
    (a :: l).filter (fun y => decide (loadOf nodes y = q)) =
      a :: l.filter (fun y => decide (loadOf nodes y = q)) := by
  simp [List.filter, h]

theorem filter_class_cons_neg (nodes : NodeMap) (q : ℚ) (a : String) (l : List String)
    (h : ¬ loadOf nodes a = q) :
    (a :: l).filter (fun y => decide (loadOf nodes y = q)) =
      l.filter (fun y => decide (loadOf nodes y = q)) := by
  simp [List.filter, h]

theorem insertByLoadDesc_filter_class (nodes : NodeMap) (x : String) (q : ℚ) :
    ∀ l, (insertByLoadDesc nodes x l).filter (fun y => decide (loadOf nodes y = q)) =
      (x :: l).filter (fun y => decide (loadOf nodes y = q)) := by
  intro l
  induction l with
  | nil => rfl
  | cons y ys ih =>
    unfold insertByLoadDesc
    by_cases hle : loadOf nodes y ≤ loadOf nodes x
    · rw [if_pos hle]
    · rw [if_neg hle]
      by_cases hy : loadOf nodes y = q
      · have hx : ¬ loadOf nodes x = q :=
          fun hxq => hle (le_of_eq (hy.trans hxq.symm))
        rw [filter_class_cons_pos nodes q y (insertByLoadDesc nodes x ys) hy, ih,
          filter_class_cons_neg nodes q x ys hx,
          filter_class_cons_neg nodes q x (y :: ys) hx,
          filter_class_cons_pos nodes q y ys hy]
      · by_cases hx : loadOf nodes x = q
        · rw [filter_class_cons_neg nodes q y (insertByLoadDesc nodes x ys) hy, ih,
            filter_class_cons_pos nodes q x ys hx,
            filter_class_cons_pos nodes q x (y :: ys) hx,
            filter_class_cons_neg nodes q y ys hy]
        · rw [filter_class_cons_neg nodes q y (insertByLoadDesc nodes x ys) hy, ih,
            filter_class_cons_neg nodes q x ys hx,
            filter_class_cons_neg nodes q x (y :: ys) hx,
            filter_class_cons_neg nodes q y ys hy]

theorem sortNodesByLoad_filter_class (nodes : NodeMap) (q : ℚ) :
    ∀ ns, (sortNodesByLoad ns nodes).filter (fun y => decide (loadOf nodes y = q)) =
      ns.filter (fun y => decide (loadOf nodes y = q)) := by
  intro ns
  induction ns with
  | nil => rfl
  | cons x rest ih =>
    unfold sortNodesByLoad
    rw [insertByLoadDesc_filter_class nodes x q (sortNodesByLoad rest nodes)]
    by_cases hx : loadOf nodes x = q
    · rw [filter_class_cons_pos nodes q x (sortNodesByLoad rest nodes) hx, ih,
        filter_class_cons_pos nodes q x rest hx]
    · rw [filter_class_cons_neg nodes q x (sortNodesByLoad rest nodes) hx, ih,
        filter_class_cons_neg nodes q x rest hx]

/-- Claim C8 amended: within a level the processing order is Python's stable
sort on load descending alone — a permutation of the level's topology-map
(attach) order, sorted by descending load, and stable in full generality:
for every load value, the nodes carrying that load appear in exactly their
topology-map order (ties keep map order, not ascending id), also in levels
that mix different loads. -/
theorem sortNodesByLoad_spec (ns : List String) (nodes : NodeMap) :
    List.Perm (sortNodesByLoad ns nodes) ns ∧
    List.Pairwise (fun a b => loadOf nodes b ≤ loadOf nodes a)
      (sortNodesByLoad ns nodes) ∧
    (∀ q : ℚ, (sortNodesByLoad ns nodes).filter (fun y => decide (loadOf nodes y = q)) =
      ns.filter (fun y => decide (loadOf nodes y = q))) :=
  ⟨sortNodesByLoad_perm nodes ns, sortNodesByLoad_pairwise nodes ns,
    fun q => sortNodesByLoad_filter_class nodes q ns⟩

/-- C8 inputs: three equal-load nodes; SN2 was attached before SN1 at level 1. -/
def c8Nodes : NodeMap :=
  [("SN0", wInfo [149] [33] [30] [24]),
   ("SN2", wInfo [149] [33] [30] [24]),
   ("SN1", wInfo [149] [33] [30] [24])]

/-- C8 topology: SN2 precedes SN1 in map (attach) order at level 1. -/
def c8Topo : Topology :=
  [("SN0", ⟨none, none, 0, [], [], []⟩),
   ("SN2", ⟨some "SN0", some Band.H, 1, [], [], []⟩),
   ("SN1", ⟨some "SN0", some Band.H, 1, [], [], []⟩)]

/-- Counterexample for C8: at level 1 the source's sort keeps the equal-load
nodes in map order SN2, SN1, while the claimed (-load, id) key would order
them SN1, SN2. -/
theorem levelOrder_not_sorted_by_id :
    sortNodesByLoad (levelNodesOf c8Topo 1) c8Nodes = ["SN2", "SN1"] ∧
    sortByLoadThenIdSpec (levelNodesOf c8Topo 1) c8Nodes = ["SN1", "SN2"] := by
  decide

/-- Witness for C8 amended at the concrete level: the load-0 class of the
level keeps its topology-map order through the sort. -/
theorem sortNodesByLoad_spec_witness :
    (sortNodesByLoad (levelNodesOf c8Topo 1) c8Nodes).filter
        (fun y => decide (loadOf c8Nodes y = 0)) =
      (levelNodesOf c8Topo 1).filter (fun y => decide (loadOf c8Nodes y = 0)) :=
  (sortNodesByLoad_spec (levelNodesOf c8Topo 1) c8Nodes).2.2 0

/-! Claim C9: every ChannelAssignmentError the assigner produces carries a
message only — the structured details stay None. -/

theorem errFields_of_mkChanErr {e : ChannelAssignmentErrorData} {msg : String}
    (h : mkChanErr msg = e) :
    e.node_id = none ∧ e.band = none ∧ e.attempted_channels = none ∧
      e.conflict_nodes = none := by
  rw [← h]
  simp [mkChanErr]

theorem processNode_err {σ : List Int → List Int → List Int} {cfg : TopologyConfig}
    {x : String} {topology : Topology} {nodes : NodeMap} {edges : EdgeMap}
    {e : ChannelAssignmentErrorData}
    (h : processNode σ cfg x topology nodes edges = .error e) :
    e.node_id = none ∧ e.band = none ∧ e.attempted_channels = none ∧
      e.conflict_nodes = none := by
  unfold processNode at h
  split at h
  · injection h with h2
    exact errFields_of_mkChanErr h2
  · split at h
    · injection h with h2
      exact errFields_of_mkChanErr h2
    · split at h
      · injection h with h2
        exact errFields_of_mkChanErr h2
      · split at h
        · injection h with h2
          exact errFields_of_mkChanErr h2
        · simp at h
        · split at h
          · injection h with h2
            exact errFields_of_mkChanErr h2
          · simp at h
          · injection h with h2
            exact errFields_of_mkChanErr h2

theorem nodesLoop_err {σ : List Int → List Int → List Int} {cfg : TopologyConfig}
    {nodes : NodeMap} {edges : EdgeMap} :
    ∀ {xs : List String} {topology : Topology} {e : ChannelAssignmentErrorData},
      nodesLoop σ cfg xs topology nodes edges = .error e →
      e.node_id = none ∧ e.band = none ∧ e.attempted_channels = none ∧
        e.conflict_nodes = none := by
  intro xs
  induction xs with
  | nil =>
    intro topology e h
    rw [nodesLoop] at h
    simp at h
  | cons x rest ih =>
    intro topology e h
    rw [nodesLoop] at h
    split at h
    · next e2 heq =>
      injection h with h2
      exact h2 ▸ processNode_err heq
    · exact ih h

theorem levelsLoop_err {σ : List Int → List Int → List Int} {cfg : TopologyConfig}
    {base : Topology} {nodes : NodeMap} {edges : EdgeMap} :
    ∀ {ls : List Nat} {topology : Topology} {e : ChannelAssignmentErrorData},
      levelsLoop σ cfg base ls topology nodes edges = .error e →
      e.node_id = none ∧ e.band = none ∧ e.attempted_channels = none ∧
        e.conflict_nodes = none := by
  intro ls
  induction ls with
  | nil =>
    intro topology e h
    rw [levelsLoop] at h
    simp at h
  | cons l rest ih =>
    intro topology e h
    rw [levelsLoop] at h
    split at h
    · split at h
      · next e2 heq =>
        injection h with h2
        exact h2 ▸ nodesLoop_err heq
      · exact ih h
    · injection h with h2
      exact errFields_of_mkChanErr h2

theorem assignChannels_err_fields {σ : List Int → List Int → List Int}
    {cfg : TopologyConfig} {topology : Topology} {nodes : NodeMap} {edges : EdgeMap}
    {e : ChannelAssignmentErrorData}
    (h : assignChannels σ cfg topology nodes edges = .error e) :
    e.node_id = none ∧ e.band = none ∧ e.attempted_channels = none ∧
      e.conflict_nodes = none := by
  unfold assignChannels at h
  split at h
  · injection h with h2
    exact errFields_of_mkChanErr h2
  · split at h
    · injection h with h2
      exact errFields_of_mkChanErr h2
    · split at h
      · injection h with h2
        exact errFields_of_mkChanErr h2
      · exact levelsLoop_err h

/-- Whether a result is an error that does carry some structured detail. -/
def errDetailsCarried : Except ChannelAssignmentErrorData Topology → Bool
  | .error e =>
    e.node_id.isSome || e.band.isSome || e.attempted_channels.isSome ||
      e.conflict_nodes.isSome
  | .ok _ => false

/-- Claim C9 amended: whenever `assign_channels` fails — in particular when
no channel at any bandwidth, including the spec-modelled minimum-bandwidth
retry, survives conflict filtering — the raised ChannelAssignmentError names
the node only inside its message: the structured details node_id, band,
attempted_channels and conflict_nodes are all None at every raise site. -/
theorem assignChannels_error_details_never_carried
    (σ : List Int → List Int → List Int) (cfg : TopologyConfig)
    (topology : Topology) (nodes : NodeMap) (edges : EdgeMap) :
    errDetailsCarried (assignChannels σ cfg topology nodes edges) = false := by
  cases h : assignChannels σ cfg topology nodes edges with
  | ok t => rfl
  | error e =>
    obtain ⟨h1, h2, h3, h4⟩ := assignChannels_err_fields h
    simp [errDetailsCarried, h1, h2, h3, h4]

/-- C9 inputs: a level-1 child whose channel lists are all empty, so no
bandwidth — not even the minimum-bandwidth retry — can yield a channel. -/
def c9Info : NodeInfo :=
  ⟨(0, 0), 0, fun _ _ => [], fun _ _ => []⟩

/-- C9 topology: root plus one child with backhaul H. -/
def c9Topo : Topology :=
  [("SN0", ⟨none, none, 0, [], [], []⟩),
   ("SN1", ⟨some "SN0", some Band.H, 1, [], [], []⟩)]

/-- C9 node map: both nodes support no channels at all. -/
def c9Nodes : NodeMap :=
  [("SN0", c9Info), ("SN1", c9Info)]

/-- Counterexample for C9: on the input whose child admits no channel at any
bandwidth the assigner does raise a ChannelAssignmentError, but its details
carry neither node_id nor band nor attempted channels nor conflict set — all
four are None, against the claim. -/
theorem channel_error_details_all_none_example :
    resultErrDetailsAllNone
      (assignChannels pyOrderRef defaultConfig c9Topo c9Nodes []) = true := by
  decide

/-! Claim C3: the channel pick depends on the materialisation order of
`list(set(device_channels) - set(used_channels))`, not on the declared list
order.  CPython orders that list by hash-table slot: at device list
[149, 100] with nothing used, slot 100 mod 8 = 4 precedes slot 149 mod 8 = 5,
so the source assigns 100 even though 149 is declared first. -/

/-- A second lawful materialisation order: the declared-order enumeration
reversed.  Both orders enumerate exactly the set difference. -/
def pyOrderRev : List Int → List Int → List Int :=
  fun device used =>
    ((device.dedup).filter (fun c => decide (c ∉ used))).reverse

/-- C3 node description: two declared 160M channels on 6GH, 149 first. -/
def c3Info : NodeInfo :=
  ⟨(0, 0), 0,
   fun b bw => match b, bw with
     | .H, .w160 => [149, 100]
     | _, _ => [],
   fun b bw => match b, bw with
     | .H, .w160 => [30, 30]
     | _, _ => []⟩

/-- C3 topology: root plus one child on backhaul H. -/
def c3Topo : Topology :=
  [("SN0", ⟨none, none, 0, [], [], []⟩),
   ("SN1", ⟨some "SN0", some Band.H, 1, [], [], []⟩)]

/-- C3 node map: the root supports no channels, the child supports two. -/
def c3Nodes : NodeMap :=
  [("SN0", c9Info), ("SN1", c3Info)]

/-- For claim C3: two materialisation orders that both enumerate the set
difference lead the assigner to different channels for the same input — the
declared-first order picks 149, the reversed order picks 100 — so the
declared list order does not determine the pick; what decides it is the
Python set iteration order, which at this input yields 100, not the declared
first 149. -/
theorem channel_pick_depends_on_set_order :
    AvailOrder pyOrderRev ∧
    (∃ t1, assignChannels pyOrderRef defaultConfig c3Topo c3Nodes [] = .ok t1 ∧
      alookup t1 "SN1" =
        some ⟨some "SN0", some Band.H, 1, [149], [160], [30]⟩) ∧
    (∃ t2, assignChannels pyOrderRev defaultConfig c3Topo c3Nodes [] = .ok t2 ∧
      alookup t2 "SN1" =
        some ⟨some "SN0", some Band.H, 1, [100], [160], [30]⟩) := by
  refine ⟨fun d u => List.reverse_perm _, ⟨_, rfl, by rfl⟩, ⟨_, rfl, by rfl⟩⟩
